import Mathlib

/-!
Verification development for the stem-mixdown and click-overlay engine of
DrumTrainer (`src/app.py`, command `make-backing` and its helpers
`_load_seg`, `_longest_duration_ms`, `_make_click_sample`).

Modelling conventions:
* audio sample values are idealised as real numbers with full scale 1
  (the integer PCM arithmetic of pydub is treated as exact additive
  mixing, as the glossary of the spec defines overlay);
* durations, beat times and gain levels computed by the Python code are
  rationals; the Python `int()` (truncation toward zero) and `round(_, 6)`
  are modelled exactly over the rationals;
* `pydub.AudioSegment` is a channel count plus a list of frames;
  `set_channels` keeps the frame content (frame count is unchanged by a
  channel conversion) and records the new channel count;
* in the end-to-end model `makeBackingRun`, one frame stands for one
  millisecond of audio, so `max_len` is the maximum frame count; the
  `int(duration_seconds * 1000)` truncation is modelled separately by
  `durationMs` / `longestDurationMs`.
-/

namespace DrumTrainer

/-- Model of the Python `int(q)`: truncation toward zero. -/
def pyInt (q : ℚ) : ℤ := if 0 ≤ q then ⌊q⌋ else ⌈q⌉

/-- Model of the Python `round(q, 6)` idealised over the rationals: round to the
nearest multiple of `10⁻⁶`. -/
def round6 (q : ℚ) : ℚ := (round (q * 1000000) : ℚ) / 1000000

/-- The fixed-tempo `while t <= total` loop of `make-backing`
(src/app.py lines 254-257): starting from the accumulator `t`, append
`round(t, 6)` and step by `step` while `t ≤ total`. -/
def beatLoop (step total : ℚ) (hstep : 0 < step) (t : ℚ) : List ℚ :=
  if t ≤ total then round6 t :: beatLoop step total hstep (t + step) else []
termination_by (⌊(total - t) / step⌋ + 1).toNat
decreasing_by
  rename_i h
  have hx : (0 : ℚ) ≤ (total - t) / step := div_nonneg (by linarith) hstep.le
  have h1 : (total - (t + step)) / step = (total - t) / step - 1 := by
    field_simp
    ring
  have h2 : ⌊(total - (t + step)) / step⌋ = ⌊(total - t) / step⌋ - 1 := by
    rw [h1]
    exact_mod_cast Int.floor_sub_int ((total - t) / step) 1
  have h3 : (0 : ℤ) ≤ ⌊(total - t) / step⌋ := Int.floor_nonneg.mpr hx
  omega

/-- The beat list built by `make-backing` in fixed-tempo mode
(src/app.py lines 251-257): the Python guard is `elif bpm and bpm > 0:`,
so a missing, zero or negative bpm leaves the beat list empty; otherwise
the loop runs with `step = 60 / bpm` from `t = 0`. -/
def fixedTempoBeats (bpm : Option ℚ) (total : ℚ) : List ℚ :=
  match bpm with
  | none => []
  | some b =>
    if hb : 0 < b then beatLoop (60 / b) total (by positivity) 0 else []

/-- The click-level branch of `_make_click_sample` (src/app.py line 195),
expressed as the gain in dB that is applied to the raw click:
`click - max(0.0, -level_db)` when `level_db < 0`, else `click + level_db`. -/
def clickGainDb (level_db : ℚ) : ℚ :=
  if level_db < 0 then -(max 0 (-level_db)) else level_db

/-- The uniform conversion the spec proposes: always add `level_db`. -/
def clickGainDbUniform (level_db : ℚ) : ℚ := level_db

/-- An idealised `pydub.AudioSegment`: a channel count plus real-valued
sample frames (full scale 1). -/
structure Seg where
  channels : ℕ
  frames : List ℝ

/-- pydub `set_channels`: record the new channel count; the frame count
is unchanged by a channel conversion. -/
def setChannels (n : ℕ) (s : Seg) : Seg := { channels := n, frames := s.frames }

/-- Model of `_load_seg` (src/app.py lines 179-184): decode the file, then force
2 channels with `set_channels(2)`. The decoded raw segment is the input. -/
def loadSeg (raw : Seg) : Seg := setChannels 2 raw

/-- Model of `AudioSegment.silent(duration=max_len, ...)`: a (mono) run of zero
frames. -/
def silentSeg (len : ℕ) : Seg := { channels := 1, frames := List.replicate len 0 }

/-- The silent stereo canvas of src/app.py line 227:
`AudioSegment.silent(duration=max_len, frame_rate=frame_rate).set_channels(2)`. -/
def baseCanvas (len : ℕ) : Seg := setChannels 2 (silentSeg len)

/-- Additive overlay of `top` onto `base` at frame position `pos`
(pydub `overlay`): the result keeps the length (duration) of `base`, and
the part of `top` that extends past the end of `base` is dropped. -/
noncomputable def overlayFrames (base top : List ℝ) (pos : ℕ) : List ℝ :=
  (List.range base.length).map fun i =>
    base.getD i 0 + if i < pos then 0 else top.getD (i - pos) 0

/-- Model of `base.overlay(top, position=pos)` on segments. -/
noncomputable def overlaySeg (base top : Seg) (pos : ℕ) : Seg :=
  { channels := base.channels, frames := overlayFrames base.frames top.frames pos }

/-- Linear amplitude factor of a gain in dB: `10 ^ (db / 20)`; this is the
factor that the pydub `apply_gain` (and `seg + db` / `seg - db`) multiplies the
samples by. -/
noncomputable def gainFactor (db : ℝ) : ℝ := (10 : ℝ) ^ (db / 20)

/-- Model of `seg.apply_gain(db)`: scale every sample by `gainFactor db`. -/
noncomputable def applyGainDb (db : ℝ) (s : Seg) : Seg :=
  { channels := s.channels, frames := s.frames.map fun x => x * gainFactor db }

/-- Peak absolute amplitude of a frame list (pydub `seg.max` with full
scale 1). -/
noncomputable def maxAmpF : List ℝ → ℝ
  | [] => 0
  | x :: xs => max |x| (maxAmpF xs)

/-- pydub `max_dBFS` with full scale 1: `20 · log₁₀(peak)`. -/
noncomputable def maxDBFS (s : Seg) : ℝ := 20 * Real.logb 10 (maxAmpF s.frames)

open Classical in
/-- The loudness-normalisation gain of src/app.py line 267:
`-1.0 - backing.max_dBFS` unless the buffer is pure silence
(`max_dBFS == -inf`, i.e. peak amplitude 0), in which case `0.0`. -/
noncomputable def normalizeGainDb (s : Seg) : ℝ :=
  if maxAmpF s.frames = 0 then 0 else -1 - maxDBFS s

/-- Lines 267-268: apply the normalisation gain to the whole buffer. -/
noncomputable def normalizeSeg (s : Seg) : Seg := applyGainDb (normalizeGainDb s) s

/-- The stem overlay stage of src/app.py lines 229-235: attenuate the
drums by `drumGain` dB, then overlay vocals, bass, other and the
attenuated drums onto the canvas, each at position 0. -/
noncomputable def mixStems (base vocals bass other drums : Seg) (drumGain : ℝ) : Seg :=
  overlaySeg
    (overlaySeg (overlaySeg (overlaySeg base vocals 0) bass 0) other 0)
    (applyGainDb drumGain drums) 0

/-- Overlaying a list of segments onto `base` in order, each at
position 0 (the generic form of lines 232-235). -/
noncomputable def overlayList (base : Seg) (tops : List Seg) : Seg :=
  tops.foldl (fun acc t => overlaySeg acc t 0) base

/-- The click-overlay loop of src/app.py lines 261-264: for each beat
time `t` (seconds), compute `pos = int(t * 1000)` and overlay the click
at `pos` only when `0 <= pos < max_len`; otherwise the beat is skipped. -/
noncomputable def overlayClicks (backing click : Seg) (beats : List ℚ) (maxLen : ℤ) : Seg :=
  beats.foldl
    (fun acc t =>
      if 0 ≤ pyInt (t * 1000) ∧ pyInt (t * 1000) < maxLen then
        overlaySeg acc click (pyInt (t * 1000)).toNat
      else acc)
    backing

/-- Model of `int(s.duration_seconds * 1000)` for a stem of duration `d` seconds. -/
def durationMs (d : ℚ) : ℤ := pyInt (d * 1000)

/-- Model of `_longest_duration_ms` (src/app.py lines 186-187) applied to the five
stems, whose durations in seconds are given. -/
def longestDurationMs (dv dd db dOther dm : ℚ) : ℤ :=
  max (max (max (max (durationMs dv) (durationMs dd)) (durationMs db)) (durationMs dOther))
    (durationMs dm)

/-- Error kinds of the engine (spec section 7); the mixdown code raises
`FileNotFoundError` naming the absent file, modelled by `missingInput`. -/
inductive MixError where
  | missingInput (path : String)
  | invalidParameter (msg : String)

/-- The five required stem files checked at src/app.py lines 214-217, in
source order. -/
def requiredStems : List String :=
  ["vocals.wav", "drums.wav", "bass.wav", "other.wav", "mix.wav"]

/-- Configuration surface of `make-backing` used by the model. -/
structure Options where
  autoBpm : Bool
  bpm : Option ℚ
  withClick : Bool
  drumGain : ℝ

/-- End-to-end model of the `make-backing` command body
(src/app.py lines 214-268): validate the five stem files (failing with
`MixError.missingInput` on the first absent one, before any stem is
loaded), load the stems at 2 channels, build the silent canvas of the
maximum length, overlay the stems with the drum gain applied, build the
beat list (external when `autoBpm`, else fixed-tempo), overlay clicks
when the beat list is non-empty, and normalise.  `hasFile`/`loadFile`
stand for the file system, `externalBeats` for the metadata/librosa beat
estimate, and `click` for the (random) `_make_click_sample` output. -/
noncomputable def makeBackingRun (hasFile : String → Bool) (loadFile : String → Seg)
    (externalBeats : List ℚ) (click : Seg) (opts : Options) : Except MixError Seg :=
  match requiredStems.find? (fun n => !hasFile n) with
  | some n => .error (.missingInput n)
  | none =>
    let vocals := loadSeg (loadFile "vocals.wav")
    let drums := loadSeg (loadFile "drums.wav")
    let bass := loadSeg (loadFile "bass.wav")
    let other := loadSeg (loadFile "other.wav")
    let mix := loadSeg (loadFile "mix.wav")
    let maxLen : ℕ :=
      max (max (max (max vocals.frames.length drums.frames.length) bass.frames.length)
        other.frames.length) mix.frames.length
    let base := baseCanvas maxLen
    let backing := mixStems base vocals bass other drums opts.drumGain
    let beats : List ℚ :=
      if opts.withClick then
        if opts.autoBpm then externalBeats
        else fixedTempoBeats opts.bpm ((maxLen : ℚ) / 1000)
      else []
    let backing2 := if beats.isEmpty then backing else overlayClicks backing click beats (maxLen : ℤ)
    .ok (normalizeSeg backing2)

/-! ### Supporting lemmas -/

lemma getD_map_range (n : ℕ) (f : ℕ → ℝ) (i : ℕ) :
    ((List.range n).map f).getD i 0 = if i < n then f i else 0 := by
  rw [List.getD_eq_getElem?_getD, List.getElem?_map]
  by_cases h : i < n
  · rw [List.getElem?_range h]
    simp [h]
  · rw [List.getElem?_eq_none (by simpa using Nat.le_of_not_lt h)]
    simp [h]

lemma length_overlayFrames (base top : List ℝ) (pos : ℕ) :
    (overlayFrames base top pos).length = base.length := by
  simp [overlayFrames]

lemma overlayFrames_zero_eq_map (b t : List ℝ) :
    overlayFrames b t 0 = (List.range b.length).map fun i => b.getD i 0 + t.getD i 0 := by
  unfold overlayFrames
  exact List.map_congr_left (by intro a _; simp)

lemma overlayFrames_zero_comm (b x y : List ℝ) :
    overlayFrames (overlayFrames b x 0) y 0 = overlayFrames (overlayFrames b y 0) x 0 := by
  rw [overlayFrames_zero_eq_map (overlayFrames b x 0) y,
    overlayFrames_zero_eq_map (overlayFrames b y 0) x,
    overlayFrames_zero_eq_map b x, overlayFrames_zero_eq_map b y]
  simp only [List.length_map, List.length_range]
  apply List.map_congr_left
  intro i hi
  have hi' : i < b.length := by simpa using hi
  rw [getD_map_range, getD_map_range, if_pos hi', if_pos hi']
  ring

lemma channels_overlaySeg (base top : Seg) (pos : ℕ) :
    (overlaySeg base top pos).channels = base.channels := rfl

lemma overlaySeg_zero_comm (s x y : Seg) :
    overlaySeg (overlaySeg s x 0) y 0 = overlaySeg (overlaySeg s y 0) x 0 := by
  unfold overlaySeg
  simp only
  rw [overlayFrames_zero_comm]

lemma overlayList_perm (base : Seg) {l₁ l₂ : List Seg} (p : l₁.Perm l₂) :
    overlayList base l₁ = overlayList base l₂ := by
  induction p generalizing base with
  | nil => rfl
  | cons x _ ih => exact ih (overlaySeg base x 0)
  | swap x y l =>
    show overlayList (overlaySeg (overlaySeg base y 0) x 0) l
        = overlayList (overlaySeg (overlaySeg base x 0) y 0) l
    rw [overlaySeg_zero_comm]
  | trans _ _ ih₁ ih₂ => exact (ih₁ base).trans (ih₂ base)

lemma mixStems_eq_overlayList (base v bs ot dr : Seg) (g : ℝ) :
    mixStems base v bs ot dr g = overlayList base [v, bs, ot, applyGainDb g dr] := rfl

/-! ### Claims -/

/-- C9: the two-branch gain expression of the click generator (subtract
`max(0, -level_db)` when `level_db < 0`, otherwise add `level_db`) equals
the uniform single-branch expression that adds `level_db` unconditionally;
in particular there is no discontinuity between the two branches at 0. -/
theorem claim_C9_click_gain_uniform (level_db : ℚ) :
    clickGainDb level_db = clickGainDbUniform level_db := by
  unfold clickGainDb clickGainDbUniform
  by_cases h : level_db < 0
  · rw [if_pos h, max_eq_right (by linarith), neg_neg]
  · rw [if_neg h]

/-- C10: every stem buffer entering the mixdown is forced to 2 channels by
the loader (`_load_seg` ends in `set_channels(2)`), the silent base canvas
is created with 2 channels, and hence the stem-overlay result keeps
2 channels — the shared-channel-count invariant is enforced by the loader,
not assumed of the caller. -/
theorem claim_C10_stereo_invariant (raw : Seg) (n : ℕ) (v bs ot dr : Seg) (g : ℝ) :
    (loadSeg raw).channels = 2 ∧ (baseCanvas n).channels = 2 ∧
      (mixStems (baseCanvas n) v bs ot dr g).channels = 2 :=
  ⟨rfl, rfl, rfl⟩

/-- C8: overlay is sample-wise additive mixing, so overlaying the four
stems (vocals, bass, other, attenuated drums) onto the canvas in any
permutation of the fixed source order yields the same numeric buffer as
the fixed order used by `make-backing`. -/
theorem claim_C8_overlay_order_irrelevant (base v bs ot dr : Seg) (g : ℝ)
    (l : List Seg) (hp : l.Perm [v, bs, ot, applyGainDb g dr]) :
    overlayList base l = mixStems base v bs ot dr g := by
  rw [mixStems_eq_overlayList]
  exact overlayList_perm base hp

/-- Witness for C8 at a concrete stem set: swapping the first two stems
of the fixed order leaves the mix unchanged. -/
theorem claim_C8_witness :
    overlayList ⟨2, [0]⟩ [⟨2, [(2 : ℝ)]⟩, ⟨2, [(1 : ℝ)]⟩, ⟨2, [(3 : ℝ)]⟩, applyGainDb 0 ⟨2, [(4 : ℝ)]⟩]
      = mixStems ⟨2, [0]⟩ ⟨2, [(1 : ℝ)]⟩ ⟨2, [(2 : ℝ)]⟩ ⟨2, [(3 : ℝ)]⟩ ⟨2, [(4 : ℝ)]⟩ 0 :=
  claim_C8_overlay_order_irrelevant ⟨2, [0]⟩ ⟨2, [(1 : ℝ)]⟩ ⟨2, [(2 : ℝ)]⟩ ⟨2, [(3 : ℝ)]⟩
    ⟨2, [(4 : ℝ)]⟩ 0 _ (List.Perm.swap (⟨2, [(1 : ℝ)]⟩ : Seg) (⟨2, [(2 : ℝ)]⟩ : Seg) _)

lemma maxAmpF_nonneg (l : List ℝ) : 0 ≤ maxAmpF l := by
  induction l with
  | nil => simp [maxAmpF]
  | cons x xs ih =>
    rw [maxAmpF]
    exact le_max_of_le_right ih

lemma abs_getD_le_maxAmpF (l : List ℝ) (i : ℕ) : |l.getD i 0| ≤ maxAmpF l := by
  induction l generalizing i with
  | nil => simp [maxAmpF]
  | cons x xs ih =>
    rw [maxAmpF]
    cases i with
    | zero =>
      rw [List.getD_cons_zero]
      exact le_max_left _ _
    | succ n =>
      rw [List.getD_cons_succ]
      exact le_max_of_le_right (ih n)

lemma maxAmpF_map_mul (l : List ℝ) (c : ℝ) :
    maxAmpF (l.map fun x => x * c) = |c| * maxAmpF l := by
  induction l with
  | nil => simp [maxAmpF]
  | cons x xs ih =>
    simp only [List.map_cons]
    rw [maxAmpF, maxAmpF, ih, abs_mul, mul_max_of_nonneg _ _ (abs_nonneg c), mul_comm |x| |c|]

lemma gainFactor_neg120 : gainFactor (-120) = 1 / 1000000 := by
  unfold gainFactor
  rw [show ((-120 : ℝ) / 20) = ((-6 : ℤ) : ℝ) by norm_num, Real.rpow_intCast]
  norm_num

/-- C6 amended: attenuating drums by −120 dB goes through the ordinary
gain path (`applyGainDb`, no special mute branch), and the overlay-stage
output (before the final loudness normalisation) differs sample-wise from
the overlay stage with drums omitted by at most `peak(drums) / 10⁶` —
numerically indistinguishable at that stage.  After normalisation the
equivalence can fail (see the counterexample below). -/
theorem claim_C6_mute_via_gain (base v bs ot dr : Seg) :
    mixStems base v bs ot dr (-120)
        = overlaySeg (overlayList base [v, bs, ot]) (applyGainDb (-120) dr) 0 ∧
      ∀ i : ℕ,
        |(mixStems base v bs ot dr (-120)).frames.getD i 0
            - (overlayList base [v, bs, ot]).frames.getD i 0|
          ≤ maxAmpF dr.frames / 1000000 := by
  refine ⟨rfl, fun i => ?_⟩
  have hmix : (mixStems base v bs ot dr (-120)).frames
      = overlayFrames (overlayList base [v, bs, ot]).frames (applyGainDb (-120) dr).frames 0 :=
    rfl
  set M := overlayList base [v, bs, ot] with hM
  rw [hmix, overlayFrames_zero_eq_map, getD_map_range]
  by_cases h : i < M.frames.length
  · rw [if_pos h]
    have h2 := abs_getD_le_maxAmpF (applyGainDb (-120) dr).frames i
    have h3 : maxAmpF (applyGainDb (-120) dr).frames = 1 / 1000000 * maxAmpF dr.frames := by
      show maxAmpF (dr.frames.map fun x => x * gainFactor (-120)) = _
      rw [maxAmpF_map_mul, gainFactor_neg120]
      norm_num
    rw [h3] at h2
    calc |M.frames.getD i 0 + (applyGainDb (-120) dr).frames.getD i 0 - M.frames.getD i 0|
        = |(applyGainDb (-120) dr).frames.getD i 0| := by rw [add_sub_cancel_left]
      _ ≤ maxAmpF dr.frames / 1000000 := by linarith
  · rw [if_neg h, List.getD_eq_default _ _ (Nat.le_of_not_lt h)]
    have := maxAmpF_nonneg dr.frames
    simp only [zero_sub, abs_neg, abs_zero]
    positivity

lemma overlayFrames_zero_single (a : ℝ) :
    overlayFrames [(0 : ℝ)] [a] 0 = [a] := by
  unfold overlayFrames
  rw [show List.range (List.length [(0 : ℝ)]) = [0] from rfl]
  simp

lemma overlaySeg_zero_seg :
    overlaySeg ⟨2, [(0 : ℝ)]⟩ ⟨2, [(0 : ℝ)]⟩ 0 = ⟨2, [(0 : ℝ)]⟩ := by
  simp [overlaySeg, overlayFrames_zero_single]

/-- C6 counterexample: on a stem set with silent vocals, bass and other,
a one-frame canvas and full-scale drums, the drums-omitted mixdown output
(after loudness normalisation) is exactly silence, while the −120 dB
mixdown output is normalised back to peak −1 dBFS: its sample value is
`10 ^ (-1/20) ≈ 0.891 > 1/10`.  The two post-normalisation output buffers
are therefore not numerically indistinguishable within a small epsilon. -/
theorem claim_C6_counterexample :
    (normalizeSeg (overlayList (baseCanvas 1) [⟨2, [0]⟩, ⟨2, [0]⟩, ⟨2, [0]⟩])).frames = [0]
      ∧ (normalizeSeg (mixStems (baseCanvas 1) ⟨2, [0]⟩ ⟨2, [0]⟩ ⟨2, [0]⟩ ⟨2, [1]⟩
            (-120))).frames.getD 0 0 = (10 : ℝ) ^ (-(1 : ℝ) / 20)
      ∧ (1 : ℝ) / 10 < (10 : ℝ) ^ (-(1 : ℝ) / 20) := by
  have hbase : baseCanvas 1 = (⟨2, [(0 : ℝ)]⟩ : Seg) := rfl
  have hB : overlayList (baseCanvas 1) [⟨2, [0]⟩, ⟨2, [0]⟩, ⟨2, [0]⟩]
      = (⟨2, [(0 : ℝ)]⟩ : Seg) := by
    show overlaySeg (overlaySeg (overlaySeg (baseCanvas 1) ⟨2, [0]⟩ 0) ⟨2, [0]⟩ 0) ⟨2, [0]⟩ 0
        = (⟨2, [(0 : ℝ)]⟩ : Seg)
    rw [hbase, overlaySeg_zero_seg, overlaySeg_zero_seg, overlaySeg_zero_seg]
  have hnormB : (normalizeSeg (⟨2, [(0 : ℝ)]⟩ : Seg)).frames = [0] := by
    simp [normalizeSeg, applyGainDb]
  have hdr : applyGainDb (-120) ⟨2, [(1 : ℝ)]⟩ = (⟨2, [(1 : ℝ) / 1000000]⟩ : Seg) := by
    simp [applyGainDb, gainFactor_neg120]
  have hA : mixStems (baseCanvas 1) ⟨2, [0]⟩ ⟨2, [0]⟩ ⟨2, [0]⟩ ⟨2, [1]⟩ (-120)
      = (⟨2, [(1 : ℝ) / 1000000]⟩ : Seg) := by
    unfold mixStems
    rw [hbase, overlaySeg_zero_seg, overlaySeg_zero_seg, overlaySeg_zero_seg, hdr]
    simp [overlaySeg, overlayFrames_zero_single]
  have hamp : maxAmpF [(1 : ℝ) / 1000000] = 1 / 1000000 := by
    rw [maxAmpF, maxAmpF, abs_of_pos (by norm_num), max_eq_left (by norm_num)]
  have hne : maxAmpF ((⟨2, [(1 : ℝ) / 1000000]⟩ : Seg)).frames ≠ 0 := by
    show maxAmpF [(1 : ℝ) / 1000000] ≠ 0
    rw [hamp]
    norm_num
  have hlogb : Real.logb 10 ((1 : ℝ) / 1000000) = -6 := by
    rw [show ((1 : ℝ) / 1000000) = (10 : ℝ) ^ ((-6 : ℤ) : ℝ) from by
      rw [Real.rpow_intCast]; norm_num]
    rw [Real.logb_rpow (by norm_num) (by norm_num)]
    norm_num
  have hgain : normalizeGainDb (⟨2, [(1 : ℝ) / 1000000]⟩ : Seg) = 119 := by
    unfold normalizeGainDb
    rw [if_neg hne]
    show -1 - 20 * Real.logb 10 (maxAmpF [(1 : ℝ) / 1000000]) = 119
    rw [hamp, hlogb]
    norm_num
  have hval : (1 / 1000000 : ℝ) * gainFactor 119 = (10 : ℝ) ^ (-(1 : ℝ) / 20) := by
    unfold gainFactor
    rw [show ((1 : ℝ) / 1000000) = (10 : ℝ) ^ ((-6 : ℤ) : ℝ) from by
      rw [Real.rpow_intCast]; norm_num]
    rw [← Real.rpow_add (by norm_num : (0 : ℝ) < 10)]
    congr 1
    push_cast
    norm_num
  have hgt : (1 : ℝ) / 10 < (10 : ℝ) ^ (-(1 : ℝ) / 20) := by
    have h1 : (10 : ℝ) ^ ((-1 : ℤ) : ℝ) < (10 : ℝ) ^ (-(1 : ℝ) / 20) := by
      apply Real.rpow_lt_rpow_of_exponent_lt (by norm_num : (1 : ℝ) < 10)
      push_cast
      norm_num
    rw [Real.rpow_intCast] at h1
    norm_num at h1
    linarith
  refine ⟨?_, ?_, hgt⟩
  · rw [hB, hnormB]
  · rw [hA]
    show ([(1 : ℝ) / 1000000].map
        fun x => x * gainFactor (normalizeGainDb (⟨2, [(1 : ℝ) / 1000000]⟩ : Seg))).getD 0 0
      = (10 : ℝ) ^ (-(1 : ℝ) / 20)
    rw [hgain, List.map_cons, List.map_nil, List.getD_cons_zero, hval]

lemma gainFactor_pos (g : ℝ) : 0 < gainFactor g := by
  unfold gainFactor
  exact Real.rpow_pos_of_pos (by norm_num) _

lemma logb_gainFactor (g : ℝ) : Real.logb 10 (gainFactor g) = g / 20 := by
  unfold gainFactor
  exact Real.logb_rpow (by norm_num) (by norm_num)

lemma maxDBFS_applyGainDb (g : ℝ) (s : Seg) (h : maxAmpF s.frames ≠ 0) :
    maxDBFS (applyGainDb g s) = maxDBFS s + g := by
  have hg : 0 < gainFactor g := gainFactor_pos g
  unfold maxDBFS applyGainDb
  simp only
  rw [maxAmpF_map_mul, abs_of_pos hg, Real.logb_mul (ne_of_gt hg) h, logb_gainFactor]
  ring

/-- C2: after loudness normalisation, a mixed buffer whose peak is not
silence ends with peak level exactly −1 dBFS, and the gain applied to a
pure-silence buffer is zero, so normalisation leaves it unchanged. -/
theorem claim_C2_normalize_peak (s : Seg) :
    (maxAmpF s.frames ≠ 0 → maxDBFS (normalizeSeg s) = -1) ∧
      (maxAmpF s.frames = 0 → normalizeSeg s = s) := by
  constructor
  · intro h
    unfold normalizeSeg normalizeGainDb
    rw [if_neg h, maxDBFS_applyGainDb _ _ h]
    ring
  · intro h
    unfold normalizeSeg normalizeGainDb applyGainDb gainFactor
    rw [if_pos h]
    simp

/-- Witness for C2: a one-sample full-scale buffer normalises to peak
−1 dBFS, and a one-sample silent buffer is left unchanged. -/
theorem claim_C2_witness :
    (maxAmpF ((⟨2, [(1 : ℝ)]⟩ : Seg)).frames ≠ 0
        ∧ maxDBFS (normalizeSeg ⟨2, [(1 : ℝ)]⟩) = -1)
      ∧ (maxAmpF ((⟨2, [(0 : ℝ)]⟩ : Seg)).frames = 0
        ∧ normalizeSeg ⟨2, [(0 : ℝ)]⟩ = ⟨2, [(0 : ℝ)]⟩) := by
  have h1 : maxAmpF ((⟨2, [(1 : ℝ)]⟩ : Seg)).frames ≠ 0 := by
    simp [maxAmpF]
  have h0 : maxAmpF ((⟨2, [(0 : ℝ)]⟩ : Seg)).frames = 0 := by
    simp [maxAmpF]
  exact ⟨⟨h1, (claim_C2_normalize_peak ⟨2, [(1 : ℝ)]⟩).1 h1⟩,
    ⟨h0, (claim_C2_normalize_peak ⟨2, [(0 : ℝ)]⟩).2 h0⟩⟩

lemma pyInt_of_nonneg {q : ℚ} (h : 0 ≤ q) : pyInt q = ⌊q⌋ := if_pos h

lemma floor_max_rat (a b : ℚ) : ⌊max a b⌋ = max ⌊a⌋ ⌊b⌋ := Int.floor_mono.map_max

lemma length_frames_overlaySeg (base top : Seg) (pos : ℕ) :
    (overlaySeg base top pos).frames.length = base.frames.length :=
  length_overlayFrames base.frames top.frames pos

lemma length_frames_mixStems (base v bs ot dr : Seg) (g : ℝ) :
    (mixStems base v bs ot dr g).frames.length = base.frames.length := by
  simp [mixStems, length_frames_overlaySeg]

lemma length_frames_overlayClicks (backing click : Seg) (beats : List ℚ) (maxLen : ℤ) :
    (overlayClicks backing click beats maxLen).frames.length = backing.frames.length := by
  induction beats generalizing backing with
  | nil => rfl
  | cons t ts ih =>
    have hstep : overlayClicks backing click (t :: ts) maxLen
        = overlayClicks
            (if 0 ≤ pyInt (t * 1000) ∧ pyInt (t * 1000) < maxLen then
              overlaySeg backing click (pyInt (t * 1000)).toNat
            else backing) click ts maxLen := rfl
    rw [hstep]
    by_cases h : 0 ≤ pyInt (t * 1000) ∧ pyInt (t * 1000) < maxLen
    · rw [if_pos h, ih]
      exact length_frames_overlaySeg backing click _
    · rw [if_neg h]
      exact ih backing

lemma length_frames_normalizeSeg (s : Seg) :
    (normalizeSeg s).frames.length = s.frames.length := by
  simp [normalizeSeg, applyGainDb]

/-- C3: the mixdown canvas duration `max_len` is the floor of
`1000 · (maximum stem duration in seconds)`, hence within ±1 ms of the
exact maximum, and the final backing buffer produced from a canvas of
length `n` (stem overlay, click overlay, normalisation) keeps exactly
that length. -/
theorem claim_C3_mixdown_duration_is_max (dv dd db dOther dm : ℚ)
    (hv : 0 ≤ dv) (hd : 0 ≤ dd) (hb : 0 ≤ db) (ho : 0 ≤ dOther) (hm : 0 ≤ dm) :
    (longestDurationMs dv dd db dOther dm
        = ⌊max (max (max (max dv dd) db) dOther) dm * 1000⌋
      ∧ |(longestDurationMs dv dd db dOther dm : ℚ)
          - max (max (max (max dv dd) db) dOther) dm * 1000| ≤ 1)
    ∧ ∀ (n : ℕ) (v bs ot dr click : Seg) (beats : List ℚ) (g : ℝ),
        (normalizeSeg
            (overlayClicks (mixStems (baseCanvas n) v bs ot dr g) click beats n)).frames.length
          = n := by
  have hfloor : longestDurationMs dv dd db dOther dm
      = ⌊max (max (max (max dv dd) db) dOther) dm * 1000⌋ := by
    unfold longestDurationMs durationMs
    rw [pyInt_of_nonneg (by positivity), pyInt_of_nonneg (by positivity),
      pyInt_of_nonneg (by positivity), pyInt_of_nonneg (by positivity),
      pyInt_of_nonneg (by positivity)]
    rw [max_mul_of_nonneg _ _ (by norm_num : (0 : ℚ) ≤ 1000),
      max_mul_of_nonneg _ _ (by norm_num : (0 : ℚ) ≤ 1000),
      max_mul_of_nonneg _ _ (by norm_num : (0 : ℚ) ≤ 1000),
      max_mul_of_nonneg _ _ (by norm_num : (0 : ℚ) ≤ 1000),
      floor_max_rat, floor_max_rat, floor_max_rat, floor_max_rat]
  refine ⟨⟨hfloor, ?_⟩, ?_⟩
  · rw [hfloor]
    set x : ℚ := max (max (max (max dv dd) db) dOther) dm * 1000 with hx
    rw [abs_le]
    constructor
    · have := Int.lt_floor_add_one x
      linarith
    · have := Int.floor_le x
      linarith
  · intro n v bs ot dr click beats g
    rw [length_frames_normalizeSeg, length_frames_overlayClicks, length_frames_mixStems]
    simp [baseCanvas, silentSeg, setChannels]

/-- Witness for C3 at concrete durations 1.25 s, 2.0015 s, 0.5 s, 1 s,
1.999 s: the canvas length is `⌊2001.5⌋ = 2001` ms, within 1 ms of the
exact maximum 2001.5 ms. -/
theorem claim_C3_witness :
    longestDurationMs (5/4) (4003/2000) (1/2) 1 (1999/1000)
        = ⌊max (max (max (max (5/4 : ℚ) (4003/2000)) (1/2)) 1) (1999/1000) * 1000⌋
      ∧ |(longestDurationMs (5/4) (4003/2000) (1/2) 1 (1999/1000) : ℚ)
          - max (max (max (max (5/4 : ℚ) (4003/2000)) (1/2)) 1) (1999/1000) * 1000| ≤ 1 :=
  (claim_C3_mixdown_duration_is_max (5/4) (4003/2000) (1/2) 1 (1999/1000)
    (by norm_num) (by norm_num) (by norm_num) (by norm_num) (by norm_num)).1

lemma beatLoop_unfold (step total : ℚ) (hstep : 0 < step) (t : ℚ) :
    beatLoop step total hstep t
      = if t ≤ total then round6 t :: beatLoop step total hstep (t + step) else [] := by
  rw [beatLoop]

lemma beatLoop_eq_map (step total : ℚ) (hstep : 0 < step) :
    ∀ (k : ℕ) (t : ℚ), t ≤ total → (⌊(total - t) / step⌋).toNat = k →
      beatLoop step total hstep t
        = (List.range (k + 1)).map fun i : ℕ => round6 (t + (i : ℚ) * step) := by
  intro k
  induction k with
  | zero =>
    intro t ht hk
    have hnn : (0 : ℚ) ≤ (total - t) / step := div_nonneg (by linarith) hstep.le
    have hge := Int.floor_nonneg.mpr hnn
    have h0 : ⌊(total - t) / step⌋ = 0 := by omega
    have hlt : (total - t) / step < 1 := by
      have := Int.lt_floor_add_one ((total - t) / step)
      rw [h0] at this
      simpa using this
    have hnext : ¬ t + step ≤ total := by
      intro hcon
      have h1 : (1 : ℚ) ≤ (total - t) / step := by
        rw [le_div_iff₀ hstep]
        linarith
      linarith
    rw [beatLoop_unfold, if_pos ht, beatLoop_unfold, if_neg hnext,
      show List.range 1 = [0] from rfl]
    simp
  | succ n ih =>
    intro t ht hk
    have hnn : (0 : ℚ) ≤ (total - t) / step := div_nonneg (by linarith) hstep.le
    have hge := Int.floor_nonneg.mpr hnn
    have hfl : ⌊(total - t) / step⌋ = (n : ℤ) + 1 := by omega
    have hnext : t + step ≤ total := by
      have h1 : (1 : ℚ) ≤ (total - t) / step := by
        have h2 := Int.floor_le ((total - t) / step)
        rw [hfl] at h2
        push_cast at h2
        linarith
      rw [le_div_iff₀ hstep] at h1
      linarith
    have hk' : (⌊(total - (t + step)) / step⌋).toNat = n := by
      have hdiv : (total - (t + step)) / step = (total - t) / step - 1 := by
        field_simp
        ring
      rw [hdiv, show (total - t) / step - 1 = (total - t) / step - ((1 : ℤ) : ℚ) by push_cast; ring,
        Int.floor_sub_int, hfl]
      omega
    rw [beatLoop_unfold, if_pos ht, ih (t + step) hnext hk', List.range_succ_eq_map (n + 1)]
    simp only [List.map_cons, List.map_map, Nat.cast_zero, zero_mul, add_zero]
    congr 1
    apply List.map_congr_left
    intro a _
    simp only [Function.comp_apply]
    congr 1
    push_cast
    ring

/-- C1: in fixed-tempo mode with `bpm > 0` and total duration `T ≥ 0`, the
beat grid is exactly the timestamps `i · step` for `i = 0, …, ⌊T/step⌋`
with `step = 60/bpm`, each rounded to 6 decimal digits, so it has exactly
`⌊T/step⌋ + 1` entries. -/
theorem claim_C1_fixed_tempo_grid (b T : ℚ) (hb : 0 < b) (hT : 0 ≤ T) :
    fixedTempoBeats (some b) T
        = (List.range ((⌊T / (60 / b)⌋).toNat + 1)).map (fun i : ℕ => round6 ((i : ℚ) * (60 / b)))
      ∧ (fixedTempoBeats (some b) T).length = (⌊T / (60 / b)⌋).toNat + 1 := by
  have hstep : (0 : ℚ) < 60 / b := by positivity
  have h1 : fixedTempoBeats (some b) T = beatLoop (60 / b) T hstep 0 := by
    simp only [fixedTempoBeats]
    rw [dif_pos hb]
  have h2 : beatLoop (60 / b) T hstep 0
      = (List.range ((⌊T / (60 / b)⌋).toNat + 1)).map fun i : ℕ => round6 (0 + (i : ℚ) * (60 / b)) := by
    apply beatLoop_eq_map (60 / b) T hstep _ 0 hT
    rw [sub_zero]
  have h3 : fixedTempoBeats (some b) T
      = (List.range ((⌊T / (60 / b)⌋).toNat + 1)).map fun i : ℕ => round6 ((i : ℚ) * (60 / b)) := by
    rw [h1, h2]
    apply List.map_congr_left
    intro a _
    rw [zero_add]
  refine ⟨h3, ?_⟩
  rw [h3]
  simp

/-- Witness for C1 at the two worked examples of the spec: `bpm = 120, T = 2`
gives the 5-entry grid `[0, 0.5, 1, 1.5, 2]`, and `bpm = 60, T = 1.5`
gives the 2-entry grid `[0, 1]`. -/
theorem claim_C1_witness :
    (0 : ℚ) < 120 ∧ fixedTempoBeats (some 120) 2 = [0, 1/2, 1, 3/2, 2]
      ∧ (fixedTempoBeats (some 120) 2).length = 5
      ∧ (0 : ℚ) < 60 ∧ fixedTempoBeats (some 60) (3/2) = [0, 1]
      ∧ (fixedTempoBeats (some 60) (3/2)).length = 2 := by
  have h1 := claim_C1_fixed_tempo_grid 120 2 (by norm_num) (by norm_num)
  have h2 := claim_C1_fixed_tempo_grid 60 (3/2) (by norm_num) (by norm_num)
  refine ⟨by norm_num, ?_, ?_, by norm_num, ?_, ?_⟩
  · rw [h1.1, show ⌊(2 : ℚ) / (60 / 120)⌋.toNat + 1 = 5 from by
      rw [show ⌊(2 : ℚ) / (60 / 120)⌋ = 4 from by norm_num]; rfl]
    norm_num [List.range_succ, round6, round_eq]
  · rw [h1.2, show ⌊(2 : ℚ) / (60 / 120)⌋.toNat + 1 = 5 from by
      rw [show ⌊(2 : ℚ) / (60 / 120)⌋ = 4 from by norm_num]; rfl]
  · rw [h2.1, show ⌊(3 : ℚ) / 2 / (60 / 60)⌋.toNat + 1 = 2 from by
      rw [show ⌊(3 : ℚ) / 2 / (60 / 60)⌋ = 1 from by norm_num]; rfl]
    norm_num [List.range_succ, round6, round_eq]
  · rw [h2.2, show ⌊(3 : ℚ) / 2 / (60 / 60)⌋.toNat + 1 = 2 from by
      rw [show ⌊(3 : ℚ) / 2 / (60 / 60)⌋ = 1 from by norm_num]; rfl]

/-- C7 counterexample: entering fixed-tempo mode with `bpm = -1` (and
likewise `bpm = 0` or no bpm) produces the empty beat grid and the whole
`make-backing` run still succeeds — no `InvalidParameter` (or any other)
error is raised, contrary to the claim. -/
theorem claim_C7_counterexample :
    fixedTempoBeats (some (-1)) 5 = [] ∧ fixedTempoBeats (some 0) 5 = []
      ∧ fixedTempoBeats none 5 = []
      ∧ (makeBackingRun (fun _ => true) (fun _ => ⟨2, []⟩) [] ⟨2, []⟩
          ⟨false, some (-1), true, -120⟩).isOk = true := by
  refine ⟨?_, ?_, rfl, rfl⟩
  · simp only [fixedTempoBeats]
    rw [dif_neg (by norm_num : ¬ (0 : ℚ) < -1)]
  · simp only [fixedTempoBeats]
    rw [dif_neg (by norm_num : ¬ (0 : ℚ) < 0)]

/-- C7 amended: when fixed-tempo mode is requested with `bpm ≤ 0` (or no
bpm at all), the builder does not fail; the `elif bpm and bpm > 0` guard
silently yields an empty beat grid, so the click overlay is skipped. -/
theorem claim_C7_amended_nonpositive_bpm (b T : ℚ) (hb : b ≤ 0) :
    fixedTempoBeats (some b) T = [] ∧ fixedTempoBeats none T = [] := by
  constructor
  · simp only [fixedTempoBeats]
    rw [dif_neg (not_lt.mpr hb)]
  · rfl

/-- Witness for the amended C7 at `bpm = -3`, `T = 7`. -/
theorem claim_C7_witness :
    (-3 : ℚ) ≤ 0 ∧ fixedTempoBeats (some (-3)) 7 = [] ∧ fixedTempoBeats none 7 = [] :=
  ⟨by norm_num, (claim_C7_amended_nonpositive_bpm (-3) 7 (by norm_num)).1,
    (claim_C7_amended_nonpositive_bpm (-3) 7 (by norm_num)).2⟩

/-- C4 counterexample: at beat time `t = 0.0019` s, the click
position computed by the code `int(t * 1000)` is 1 while the claimed `round(t * 1000)` is 2
— the overlay position is not `round(t * 1000)`. -/
theorem claim_C4_counterexample :
    pyInt ((19 / 10000 : ℚ) * 1000) = 1 ∧ round ((19 / 10000 : ℚ) * 1000) = 2
      ∧ pyInt ((19 / 10000 : ℚ) * 1000) ≠ round ((19 / 10000 : ℚ) * 1000) := by
  refine ⟨?_, ?_, ?_⟩ <;> norm_num [pyInt, round_eq]

lemma overlayClicks_cons (backing click : Seg) (t : ℚ) (ts : List ℚ) (maxLen : ℤ) :
    overlayClicks backing click (t :: ts) maxLen
      = overlayClicks
          (if 0 ≤ pyInt (t * 1000) ∧ pyInt (t * 1000) < maxLen then
            overlaySeg backing click (pyInt (t * 1000)).toNat
          else backing) click ts maxLen := rfl

lemma overlayClicks_filter (backing click : Seg) (beats : List ℚ) (maxLen : ℤ) :
    overlayClicks backing click beats maxLen
      = overlayClicks backing click
          (beats.filter fun t => decide (0 ≤ pyInt (t * 1000) ∧ pyInt (t * 1000) < maxLen))
          maxLen := by
  induction beats generalizing backing with
  | nil => rfl
  | cons t ts ih =>
    by_cases h : 0 ≤ pyInt (t * 1000) ∧ pyInt (t * 1000) < maxLen
    · rw [List.filter_cons_of_pos (by simpa using h), overlayClicks_cons, if_pos h,
        overlayClicks_cons, if_pos h, ih]
    · rw [List.filter_cons_of_neg (by simpa using h), overlayClicks_cons, if_neg h, ih]

/-- C4 amended: the click overlay position for a beat at `t` seconds is
`int(t * 1000)` (truncation toward zero, not `round`); the ClickSample is
overlaid exactly at the in-range positions `0 ≤ pos < max_len`, and every
out-of-range beat is skipped silently — removing the skipped beats from
the list does not change the result, and every retained position is in
`[0, max_len)`. -/
theorem claim_C4_amended_click_positions (backing click : Seg) (beats : List ℚ) (maxLen : ℤ) :
    overlayClicks backing click beats maxLen
        = overlayClicks backing click
            (beats.filter fun t => decide (0 ≤ pyInt (t * 1000) ∧ pyInt (t * 1000) < maxLen))
            maxLen
      ∧ ∀ t ∈ beats.filter fun t => decide (0 ≤ pyInt (t * 1000) ∧ pyInt (t * 1000) < maxLen),
          0 ≤ pyInt (t * 1000) ∧ pyInt (t * 1000) < maxLen := by
  refine ⟨overlayClicks_filter backing click beats maxLen, fun t ht => ?_⟩
  have h := (List.mem_filter.mp ht).2
  simpa using h

/-- Witness for the amended C4: on the beat list `[0.0019 s, 5 s]` with a
2 ms canvas, the out-of-range beat at 5 s can be dropped without changing
the result, and the truncated position 1 of the retained beat is in range. -/
theorem claim_C4_witness :
    overlayClicks ⟨2, [0, 0]⟩ ⟨2, [(1 : ℝ)]⟩ [19 / 10000, 5] 2
        = overlayClicks ⟨2, [0, 0]⟩ ⟨2, [(1 : ℝ)]⟩
            (([19 / 10000, 5] : List ℚ).filter fun t =>
              decide (0 ≤ pyInt (t * 1000) ∧ pyInt (t * 1000) < 2)) 2
      ∧ (0 ≤ pyInt ((19 / 10000 : ℚ) * 1000) ∧ pyInt ((19 / 10000 : ℚ) * 1000) < 2) := by
  have h := claim_C4_amended_click_positions ⟨2, [0, 0]⟩ ⟨2, [(1 : ℝ)]⟩ [19 / 10000, 5] 2
  refine ⟨h.1, h.2 (19 / 10000) ?_⟩
  simp only [List.mem_filter, decide_eq_true_eq]
  refine ⟨by simp, ?_⟩
  norm_num [pyInt]

/-- C5: if any of the five required stem files is absent, `make-backing`
fails with `missingInput` naming the first absent file (validation runs
before any stem is loaded), and no output buffer is produced. -/
theorem claim_C5_missing_stem (hasFile : String → Bool) (loadFile : String → Seg)
    (externalBeats : List ℚ) (click : Seg) (opts : Options)
    (h : ∃ n ∈ requiredStems, hasFile n = false) :
    ∃ n, requiredStems.find? (fun m => !hasFile m) = some n ∧ hasFile n = false
      ∧ makeBackingRun hasFile loadFile externalBeats click opts
          = .error (.missingInput n)
      ∧ ∀ s, makeBackingRun hasFile loadFile externalBeats click opts ≠ .ok s := by
  obtain ⟨n, hfind⟩ : ∃ n, requiredStems.find? (fun m => !hasFile m) = some n := by
    rw [← Option.isSome_iff_exists, List.find?_isSome]
    obtain ⟨n, hn, hfalse⟩ := h
    exact ⟨n, hn, by simp [hfalse]⟩
  have hp := List.find?_some hfind
  have hfalse : hasFile n = false := by simpa using hp
  have herr : makeBackingRun hasFile loadFile externalBeats click opts
      = .error (.missingInput n) := by
    unfold makeBackingRun
    rw [hfind]
  refine ⟨n, hfind, hfalse, herr, fun s => ?_⟩
  rw [herr]
  simp

/-- Witness for C5: a directory lacking exactly `bass.wav` makes the run
fail with `missingInput` and produce no output. -/
theorem claim_C5_witness :
    ∃ n, requiredStems.find? (fun m => !(m != "bass.wav")) = some n
      ∧ (n != "bass.wav") = false
      ∧ makeBackingRun (fun m => m != "bass.wav") (fun _ => ⟨2, []⟩) [] ⟨2, []⟩
          ⟨false, none, false, -120⟩ = .error (.missingInput n)
      ∧ ∀ s, makeBackingRun (fun m => m != "bass.wav") (fun _ => ⟨2, []⟩) [] ⟨2, []⟩
          ⟨false, none, false, -120⟩ ≠ .ok s :=
  claim_C5_missing_stem _ _ _ _ _ ⟨"bass.wav", by decide, by decide⟩

end DrumTrainer
